import Mathlib

/-!
# Verification of the nostr-dht core (shallow embedding of `src/index.js`)

This file embeds the core of the `nostr-dht` library in Lean 4 and proves the
specification claims about it.

Modelling conventions:
* JavaScript `Uint8Array` byte buffers are `List Nat` (each entry a byte value);
  `BigInt` arithmetic is exact `Nat` arithmetic, as in JavaScript.
* The SHA-256 digest primitive (`sha256` in the source) is an abstract parameter
  `sha256 : String → List Nat`: the claims depend only on it being a function.
* Parsed JSON values are the inductive type `Json`; an incoming WebSocket
  message is `Option Json`, where `none` stands for non-string frame data or a
  string that `JSON.parse` rejects (the `catch` path of the message handler).
* JavaScript property access, truthiness, `===` comparisons against string and
  number literals, and `String.prototype.startsWith` are modelled by `jsIndex`,
  `jsField`, `truthy`, `isStrEq`, `isNumEq` and `jsStartsWith`.
* A connection task of `discoverRelays` is driven by a `Script`: either the
  constructor threw (`connectFail`, the `catch` around `new WebSocketImpl`), or
  a connection delivering a sequence of `TaskEvent`s (messages, an error, a
  close, or the per-task timeout).  Promise settlement order of `Promise.all`
  is irrelevant: `Promise.all` returns results in input position order, which
  `List.map` reproduces.
* `Array.prototype.sort` with the distance comparator is a stable sort by
  `distance ≤`; it is modelled by `List.mergeSort`, which is stable.
-/

namespace NostrDht

/-! ## Distance Metric: `xorDistance` (src/index.js lines 31-39)

```js
function xorDistance(buf1, buf2) {
    let distance = 0n;
    const len = Math.min(buf1.length, buf2.length);
    for (let i = 0; i < len; i++) {
        const xor = buf1[i] ^ buf2[i];
        distance = (distance << 8n) + BigInt(xor);
    }
    return distance;
}
```
-/

def xorDistance (buf1 buf2 : List Nat) : Nat :=
  (List.range (min buf1.length buf2.length)).foldl
    (fun distance i => (distance <<< 8) + Nat.xor (buf1.getD i 0) (buf2.getD i 0)) 0

/-- Specification-side definition: a byte sequence read as a big-endian
unsigned integer. -/
def beBytesToNat (bytes : List Nat) : Nat :=
  bytes.foldl (fun acc b => acc * 256 + b) 0

/-! ## Parsed JSON values and JavaScript-semantics helpers

`discoverRelays`'s message handler (src/index.js lines 82-101) operates on the
result of `JSON.parse`.  `Json` models such parse results (object fields are
listed with pairwise distinct keys, as `JSON.parse` produces).  `jsIndex` is
JavaScript `value[i]` for a non-null receiver (array element,
single-character string, or numeric-key object property; `undefined` is
modelled as `Json.null` — both are falsy, compare unequal to every string and
number literal under `===`, and have no `startsWith`/`forEach` methods, which
is all the handler observes).  `jsField` is `value.prop`, likewise for a
non-null receiver.  Property access on JSON `null` instead throws a
`TypeError`; `jsIndexThrows` flags exactly that receiver.  The handler can
meet a null receiver in two places.  At the top level, `data[0]` with
`data = null` throws, is caught, and leaves the accumulator unchanged with no
`cleanUp` — observably identical to the `undefined`-like no-match that
`jsIndex Json.null 0 = Json.null` yields, so the throw is collapsed there
(`data[1]`/`data[2]` and `eventData.kind`/`eventData.tags` sit behind
short-circuit guards that force a non-null receiver).  Inside the tag scan,
however, `tag[0]` on a null tag throws mid-`forEach` and aborts the remaining
tags, which is observable; `tagStep` models that throw explicitly via
`jsIndexThrows`.  `truthy` is JavaScript boolean coercion.  `isStrEq j s` is
`j === s` for a string literal `s`, `isNumEq j m` is `j === m` for a numeric
literal `m`, and `jsStartsWith s p` is `s.startsWith(p)`. -/

inductive Json where
  | null
  | bool (b : Bool)
  | num (n : Int)
  | str (s : String)
  | arr (elems : List Json)
  | obj (fields : List (String × Json))

def jsField : Json → String → Json
  | .obj fields, k =>
    match fields.lookup k with
    | some v => v
    | none => .null
  | _, _ => .null

def jsIndex : Json → Nat → Json
  | .arr elems, i => elems.getD i .null
  | .str s, i =>
    match s.data.get? i with
    | some c => .str (String.mk [c])
    | none => .null
  | .obj fields, i =>
    match fields.lookup (toString i) with
    | some v => v
    | none => .null
  | _, _ => .null

def truthy : Json → Bool
  | .null => false
  | .bool b => b
  | .num n => n != 0
  | .str s => s != ""
  | .arr _ => true
  | .obj _ => true

def isStrEq : Json → String → Bool
  | .str s, t => s == t
  | _, _ => false

def isNumEq : Json → Int → Bool
  | .num n, m => n == m
  | _, _ => false

/-- `String.prototype.startsWith`, rendered on the character lists underlying
Lean strings (so that concrete instances compute by `decide`). -/
def jsStartsWith (s p : String) : Bool := p.data.isPrefixOf s.data

/-- Is the value a string?  (A truthy non-string has no `startsWith` method:
calling it raises a `TypeError`.) -/
def isStringJson : Json → Bool
  | .str _ => true
  | _ => false

/-- Does `value[i]` itself throw?  In JavaScript, property access on `null`
(or `undefined`) raises a `TypeError`; on every other value it merely yields
a possibly-`undefined` result. -/
def jsIndexThrows : Json → Bool
  | .null => true
  | _ => false

/-! ## Per-connection message handling (src/index.js lines 55-113)

```js
ws.onmessage = (event) => {
    try {
        if (typeof event.data !== 'string') return;
        const data = JSON.parse(event.data);
        if (data[0] === "EVENT" && data[1] === subId && data[2]) {
            const eventData = data[2];
            if (eventData.kind === 10002) {
                eventData.tags.forEach(tag => {
                    if (tag[0] === 'r' && tag[1] && (tag[1].startsWith('wss://') || tag[1].startsWith('ws://'))) {
                        relaysFromThisSocket.add(tag[1]);
                    }
                });
            }
        } else if (data[0] === "EOSE" && data[1] === subId) {
            cleanUp();
        }
    } catch (e) {
        // Ignore JSON parse errors on incoming messages
    }
};
```

`relaysFromThisSocket` is a JavaScript `Set`, modelled as a duplicate-free
list in insertion order (`setAdd`).  A thrown `TypeError` inside the `forEach`
— from `tag[0]` when `tag` is JSON `null`, or from `tag[1].startsWith` when
`tag[1]` is truthy but not a string — aborts the remaining iterations and is
swallowed by the `catch`; URLs added before the throw stay in the set.
`tagStep` returns `.error` for a throwing tag (a null tag throws already at
the `tag[0]` access; once `tag[0] === 'r'` has evaluated, `tag` is non-null,
so the `tag[1]` access itself cannot throw) and `.ok` with the updated
accumulator otherwise; `processTags` runs the `forEach` under the enclosing
`try`. -/

def setAdd (l : List String) (s : String) : List String :=
  if s ∈ l then l else l ++ [s]

def tagUrlOk (s : String) : Bool := jsStartsWith s "wss://" || jsStartsWith s "ws://"

def tagStep (acc : List String) (tag : Json) : Except (List String) (List String) :=
  if jsIndexThrows tag then .error acc
  else if isStrEq (jsIndex tag 0) "r" then
    if truthy (jsIndex tag 1) then
      match jsIndex tag 1 with
      | .str s => if tagUrlOk s then .ok (setAdd acc s) else .ok acc
      | _ => .error acc
    else .ok acc
  else .ok acc

def processTags (acc : List String) : List Json → List String
  | [] => acc
  | t :: ts =>
    match tagStep acc t with
    | .ok acc' => processTags acc' ts
    | .error acc' => acc'

def handleEventData (acc : List String) (eventData : Json) : List String :=
  if isNumEq (jsField eventData "kind") 10002 then
    match jsField eventData "tags" with
    | .arr tags => processTags acc tags
    | _ => acc
  else acc

/-- One `onmessage` callback invocation: takes the subscription id, the
accumulated URL set and the (possibly unparseable, hence `Option`) message;
returns the new accumulated set and whether the task finalizes (`cleanUp`,
i.e. the `EOSE` branch fired). -/
def handleMessage (subId : String) (acc : List String) (msg : Option Json) :
    List String × Bool :=
  match msg with
  | none => (acc, false)
  | some data =>
    if isStrEq (jsIndex data 0) "EVENT" && isStrEq (jsIndex data 1) subId
        && truthy (jsIndex data 2) then
      (handleEventData acc (jsIndex data 2), false)
    else if isStrEq (jsIndex data 0) "EOSE" && isStrEq (jsIndex data 1) subId then
      (acc, true)
    else (acc, false)

/-! ## Connection tasks and `discoverRelays` (src/index.js lines 50-129) -/

/-- One externally observable occurrence on a connection: an incoming message
(`ws.onmessage`), a connection error (`ws.onerror`), a close (`ws.onclose`),
or the firing of the per-task timeout (`setTimeout(cleanUp, timeout)`).  The
last three all run `cleanUp`, which settles the task's promise with the URLs
accumulated so far. -/
inductive TaskEvent where
  | msg (m : Option Json)
  | errorEvt
  | closeEvt
  | timeoutEvt

/-- The behaviour of one bootstrap connection, as seen by `queryRelay`: either
`new WebSocketImpl(relayUrl)` throws (`connectFail`, resolving with an empty
set), or the connection opens with the generated subscription id and then
delivers a sequence of events.  An exhausted event list stands for the
timeout firing with no further activity. -/
inductive Script where
  | connectFail
  | connected (subId : String) (events : List TaskEvent)

/-- Process the events of a connected task, starting from accumulator `acc`,
until something runs `cleanUp` (EOSE, error, close, timeout) or the event
list ends (the timeout then resolves the task).  Returns the accumulated
URL set. -/
def runEvents (subId : String) (acc : List String) : List TaskEvent → List String
  | [] => acc
  | .msg m :: rest =>
    match handleMessage subId acc m with
    | (acc', true) => acc'
    | (acc', false) => runEvents subId acc' rest
  | .errorEvt :: _ => acc
  | .closeEvt :: _ => acc
  | .timeoutEvt :: _ => acc

/-- `queryRelay`: the per-bootstrap-URL task.  Its promise only ever resolves
(never rejects), with the URLs this connection accumulated. -/
def runTask : Script → List String
  | .connectFail => []
  | .connected subId events => runEvents subId [] events

/-- The merge loop over per-task results:

```js
const discoveredRelays = new Set();
results.forEach(resultSet => {
    resultSet.forEach(relay => discoveredRelays.add(relay));
});
const relayUrls = Array.from(discoveredRelays);
```
-/
def mergeResults (results : List (List String)) : List String :=
  results.foldl (fun acc resultSet => resultSet.foldl setAdd acc) []

/-- A discovered relay record `{url, hash}`. -/
structure Relay where
  url : String
  hash : List Nat
deriving DecidableEq

/-- `relayUrls.map(async (url) => { const hash = await sha256(url); return { url, hash }; })`. -/
def digestRecords (sha256 : String → List Nat) (urls : List String) : List Relay :=
  urls.map (fun url => { url := url, hash := sha256 url })

/-- `discoverRelays`, with the network behaviour of each bootstrap relay given
by a `Script`.  `Promise.all` settles with per-task results in input order,
which `List.map runTask` reproduces. -/
def discoverRelays (sha256 : String → List Nat) (scripts : List Script) : List Relay :=
  digestRecords sha256 (mergeResults (scripts.map runTask))

/-! ## Closest Selector: `getRelays` (src/index.js lines 139-154)

```js
async function getRelays(id, relays, { n = 8 } = {}) {
    const idHash = await sha256(id);
    const relaysWithDistance = relays.map(relay => {
        const distance = xorDistance(idHash, relay.hash);
        return { url: relay.url, distance };
    });
    relaysWithDistance.sort((a, b) => {
        if (a.distance < b.distance) return -1;
        if (a.distance > b.distance) return 1;
        return 0;
    });
    return relaysWithDistance.slice(0, n).map(r => r.url);
}
```
-/

/-- The `relaysWithDistance` array: each candidate's URL paired with its XOR
distance from the target digest. -/
def distPairs (sha256 : String → List Nat) (id : String) (relays : List Relay) :
    List (String × Nat) :=
  relays.map (fun relay => (relay.url, xorDistance (sha256 id) relay.hash))

/-- `Array.prototype.sort` with the distance comparator.  The comparator
returns negative/positive/zero exactly by comparing `distance`, and the
ECMAScript sort is stable, so the result is the stable sort by
`distance ≤`, which `List.mergeSort` computes. -/
def sortPairs (l : List (String × Nat)) : List (String × Nat) :=
  l.mergeSort (fun a b => decide (a.2 ≤ b.2))

/-- `Array.prototype.slice(0, n)` for an `n` that may be negative: a negative
end index counts from the end of the array (clamped at zero). -/
def jsSliceTo (l : List (String × Nat)) (n : Int) : List (String × Nat) :=
  if n < 0 then l.take (l.length - (-n).toNat) else l.take n.toNat

def getRelays (sha256 : String → List Nat) (id : String) (relays : List Relay)
    (n : Int) : List String :=
  (jsSliceTo (sortPairs (distPairs sha256 id relays)) n).map Prod.fst

/-- `getRelays` with the post-call contents of the `relays` argument made
explicit, for the frame claim: the body only reads `relays` (`Array.map`
allocates a fresh array of fresh objects; the in-place `sort` targets that
fresh array), so the candidates array still holds the same records, in the
same order, after the call. -/
def getRelaysTracked (sha256 : String → List Nat) (id : String) (relays : List Relay)
    (n : Int) : List String × List Relay :=
  let relaysWithDistance := distPairs sha256 id relays
  let sorted := sortPairs relaysWithDistance
  ((jsSliceTo sorted n).map Prod.fst, relays)

/-- A concrete digest function used to instantiate witnesses. -/
def sha256Test : String → List Nat := fun s => [s.length % 256]

/-- A concrete well-formed `["EVENT", subId, {kind: 10002, tags: [["r", url]]}]`
message, used to instantiate witnesses. -/
def mkEventMsg (subId url : String) : Json :=
  .arr [.str "EVENT", .str subId,
    .obj [("kind", .num 10002), ("tags", .arr [.arr [.str "r", .str url]])]]

/-! ## Message-handler accumulation (claim C6) -/

/-- `tag` announces relay URL `u`: its first field is the string `"r"` and its
second field is (`===`) the string `u`, which carries a `ws://` or `wss://`
scheme. -/
def relayTag (u : String) (tag : Json) : Prop :=
  isStrEq (jsIndex tag 0) "r" = true ∧ isStrEq (jsIndex tag 1) u = true ∧ tagUrlOk u = true

/-- `tag` cannot make the `forEach` callback throw: it is not JSON `null` (so
the `tag[0]` access itself is legal), and whenever its first field is `"r"`
and its second field is truthy, that second field is a string (so
`tag[1].startsWith(...)` is a legal call). -/
def safeTag (tag : Json) : Prop :=
  jsIndexThrows tag = false ∧
  (isStrEq (jsIndex tag 0) "r" = true → truthy (jsIndex tag 1) = true →
    isStringJson (jsIndex tag 1) = true)

instance (u : String) (tag : Json) : Decidable (relayTag u tag) :=
  inferInstanceAs (Decidable (isStrEq (jsIndex tag 0) "r" = true
    ∧ isStrEq (jsIndex tag 1) u = true ∧ tagUrlOk u = true))

instance (tag : Json) : Decidable (safeTag tag) :=
  inferInstanceAs (Decidable (jsIndexThrows tag = false ∧
    (isStrEq (jsIndex tag 0) "r" = true →
      truthy (jsIndex tag 1) = true → isStringJson (jsIndex tag 1) = true)))

/-- A kind-10002 event whose tag list holds a malformed tag (`["r", 1]`, whose
truthy non-string second field makes `tag[1].startsWith` throw) before a
well-formed relay tag `["r", "wss://b"]`. -/
def badTag : Json := .arr [.str "r", .num 1]

def goodTag : Json := .arr [.str "r", .str "wss://b"]

def mixedEventMsg : Json :=
  .arr [.str "EVENT", .str "s1",
    .obj [("kind", .num 10002), ("tags", .arr [badTag, goodTag])]]

/-- A kind-10002 event whose tag list starts with a JSON `null` tag — the
`tag[0]` access throws a `TypeError` — before the same well-formed relay tag
`["r", "wss://b"]`. -/
def nullTagEventMsg : Json :=
  .arr [.str "EVENT", .str "s1",
    .obj [("kind", .num 10002), ("tags", .arr [Json.null, goodTag])]]

/-! ## Theorems -/

theorem xorDistance_foldl_eq (buf1 : List Nat) :
    ∀ (buf2 : List Nat) (acc : Nat),
      (List.range (min buf1.length buf2.length)).foldl
          (fun distance i => (distance <<< 8) + Nat.xor (buf1.getD i 0) (buf2.getD i 0)) acc
        = (List.zipWith Nat.xor buf1 buf2).foldl (fun acc b => acc * 256 + b) acc := by
  induction buf1 with
  | nil => intro buf2 acc; simp
  | cons x xs ih =>
    intro buf2 acc
    cases buf2 with
    | nil => simp
    | cons y ys =>
      have hmin : min (x :: xs).length (y :: ys).length = min xs.length ys.length + 1 := by
        simp [Nat.succ_min_succ]
      rw [hmin, List.range_succ_eq_map, List.foldl_cons, List.foldl_map]
      have harg : ∀ (d : Nat) (i : Nat),
          (d <<< 8) + Nat.xor ((x :: xs).getD (Nat.succ i) 0) ((y :: ys).getD (Nat.succ i) 0)
            = (d <<< 8) + Nat.xor (xs.getD i 0) (ys.getD i 0) := by
        intro d i
        simp [List.getD_cons_succ]
      simp only [harg]
      rw [ih ys]
      simp [Nat.shiftLeft_eq, List.getD_cons_zero]

/-- Helper: `xorDistance` is big-endian interpretation of the byte-wise XOR of
the (implicitly length-truncating) `zipWith`. -/
theorem xorDistance_eq_beBytes (buf1 buf2 : List Nat) :
    xorDistance buf1 buf2 = beBytesToNat (List.zipWith Nat.xor buf1 buf2) := by
  unfold xorDistance beBytesToNat
  exact xorDistance_foldl_eq buf1 buf2 0

theorem beBytesToNat_replicate_zero (n : Nat) : beBytesToNat (List.replicate n 0) = 0 := by
  induction n with
  | zero => rfl
  | succ m ih => simpa [beBytesToNat, List.replicate_succ] using ih

/-- Helper: `xorDistance` only looks at the common prefix of its inputs. -/
theorem xorDistance_take_min (a b : List Nat) :
    xorDistance a b
      = xorDistance (a.take (min a.length b.length)) (b.take (min a.length b.length)) := by
  rw [xorDistance_eq_beBytes, xorDistance_eq_beBytes, ← List.take_zipWith]
  rw [show min a.length b.length = (List.zipWith Nat.xor a b).length by
    simp [List.length_zipWith]]
  rw [List.take_length]

/-- C10: `xorDistance` is a total function: for every pair of byte sequences,
including pairs of unequal length, it returns (rather than erroring) the XOR
distance computed over only the first `min |a| |b|` bytes of each input, read
as a big-endian integer; extra trailing bytes of the longer input are silently
ignored. -/
theorem xorDistance_total_truncating (a b : List Nat) :
    xorDistance a b = beBytesToNat (List.zipWith Nat.xor a b) ∧
    xorDistance a b
      = xorDistance (a.take (min a.length b.length)) (b.take (min a.length b.length)) ∧
    (∀ extra : List Nat, a.length ≤ b.length →
        xorDistance a (b ++ extra) = xorDistance a b) := by
  refine ⟨xorDistance_eq_beBytes a b, xorDistance_take_min a b, ?_⟩
  intro extra h
  have hm1 : min a.length (b ++ extra).length = a.length := by
    simp only [List.length_append]
    exact Nat.min_eq_left (le_trans h (Nat.le_add_right _ _))
  have hm2 : min a.length b.length = a.length := Nat.min_eq_left h
  rw [xorDistance_take_min a (b ++ extra), hm1, List.take_length,
    List.take_append_of_le_length h, xorDistance_take_min a b, hm2, List.take_length]

theorem xorDistance_total_truncating_witness :
    ([1, 2] : List Nat).length ≤ ([1, 3, 7] : List Nat).length ∧
    xorDistance [1, 2] ([1, 3, 7] ++ [9]) = xorDistance [1, 2] [1, 3, 7] :=
  ⟨by decide, (xorDistance_total_truncating [1, 2] [1, 3, 7]).2.2 [9] (by decide)⟩

/-- C2 counterexample: fed two byte sequences of unequal length, `xorDistance`
does not fail fast; it returns a result (here `0`, the distance over the
1-byte common prefix), so mismatched lengths are not treated as a fatal
precondition violation. -/
theorem xorDistance_mismatched_no_failure :
    ([18] : List Nat).length ≠ ([18, 255] : List Nat).length ∧
    xorDistance [18] [18, 255] = 0 := by decide

/-- C2 amended: for byte sequences of unequal length, `xorDistance` does not
fail; it silently returns the XOR distance computed over the common prefix of
length `min |a| |b|` (the `Math.min` in the loop bound). -/
theorem xorDistance_mismatched_truncates (a b : List Nat) (_h : a.length ≠ b.length) :
    xorDistance a b
      = xorDistance (a.take (min a.length b.length)) (b.take (min a.length b.length)) :=
  xorDistance_take_min a b

theorem xorDistance_mismatched_truncates_witness :
    ([18] : List Nat).length ≠ ([18, 255, 9] : List Nat).length ∧
    xorDistance [18] [18, 255, 9]
      = xorDistance (([18] : List Nat).take (min ([18] : List Nat).length ([18, 255, 9] : List Nat).length))
          (([18, 255, 9] : List Nat).take (min ([18] : List Nat).length ([18, 255, 9] : List Nat).length)) :=
  ⟨by decide, xorDistance_mismatched_truncates [18] [18, 255, 9] (by decide)⟩

/-- C3: for equal-length byte sequences, `xorDistance a b` is the byte-wise
exclusive-or of `a` and `b` read as a big-endian unsigned integer of `D`
bytes; in particular `xorDistance a a = 0` and `xorDistance` is symmetric. -/
theorem xorDistance_equal_length_spec (a b : List Nat) (_h : a.length = b.length) :
    xorDistance a b = beBytesToNat (List.zipWith Nat.xor a b) ∧
    xorDistance a a = 0 ∧
    xorDistance a b = xorDistance b a := by
  refine ⟨xorDistance_eq_beBytes a b, ?_, ?_⟩
  · rw [xorDistance_eq_beBytes, List.zipWith_same]
    have hmap : (List.map (fun x => Nat.xor x x) a) = List.replicate a.length 0 := by
      simp [show ∀ x : Nat, Nat.xor x x = 0 from fun x => Nat.xor_self x]
    rw [hmap, beBytesToNat_replicate_zero]
  · rw [xorDistance_eq_beBytes, xorDistance_eq_beBytes,
      List.zipWith_comm_of_comm Nat.xor Nat.xor_comm]

theorem xorDistance_equal_length_spec_witness :
    ([5, 6] : List Nat).length = ([1, 2] : List Nat).length ∧
    (xorDistance [5, 6] [1, 2] = beBytesToNat (List.zipWith Nat.xor [5, 6] [1, 2]) ∧
      xorDistance [5, 6] [5, 6] = 0 ∧
      xorDistance [5, 6] [1, 2] = xorDistance [1, 2] [5, 6]) :=
  ⟨by decide, xorDistance_equal_length_spec [5, 6] [1, 2] (by decide)⟩

/-! ## Properties of the accumulator and the merge -/

theorem mem_setAdd {u s : String} {l : List String} :
    u ∈ setAdd l s ↔ u ∈ l ∨ u = s := by
  unfold setAdd
  by_cases h : s ∈ l
  · simp only [if_pos h]
    constructor
    · exact Or.inl
    · rintro (hu | rfl)
      · exact hu
      · exact h
  · simp [if_neg h]

theorem setAdd_subset (l : List String) (s : String) : l ⊆ setAdd l s := by
  intro u hu
  exact mem_setAdd.mpr (Or.inl hu)

theorem nodup_setAdd {l : List String} (h : l.Nodup) (s : String) :
    (setAdd l s).Nodup := by
  unfold setAdd
  by_cases hs : s ∈ l
  · simpa [if_pos hs]
  · simp only [if_neg hs]
    rw [List.nodup_append]
    refine ⟨h, List.nodup_singleton s, ?_⟩
    intro a ha hb
    rcases List.mem_singleton.mp hb with rfl
    exact hs ha

theorem mem_foldl_setAdd (l : List String) :
    ∀ (acc : List String) (u : String), u ∈ l.foldl setAdd acc ↔ u ∈ acc ∨ u ∈ l := by
  induction l with
  | nil => intro acc u; simp
  | cons x xs ih =>
    intro acc u
    rw [List.foldl_cons, ih]
    rw [mem_setAdd]
    constructor
    · rintro ((hu | rfl) | hu)
      · exact Or.inl hu
      · exact Or.inr (List.mem_cons_self _ _)
      · exact Or.inr (List.mem_cons_of_mem _ hu)
    · rintro (hu | hu)
      · exact Or.inl (Or.inl hu)
      · rcases List.mem_cons.mp hu with rfl | hu
        · exact Or.inl (Or.inr rfl)
        · exact Or.inr hu

theorem nodup_foldl_setAdd (l : List String) :
    ∀ (acc : List String), acc.Nodup → (l.foldl setAdd acc).Nodup := by
  induction l with
  | nil => intro acc h; simpa
  | cons x xs ih =>
    intro acc h
    rw [List.foldl_cons]
    exact ih _ (nodup_setAdd h x)

theorem mem_mergeResults_aux (rs : List (List String)) :
    ∀ (acc : List String) (u : String),
      u ∈ rs.foldl (fun acc resultSet => resultSet.foldl setAdd acc) acc
        ↔ u ∈ acc ∨ ∃ r ∈ rs, u ∈ r := by
  induction rs with
  | nil => intro acc u; simp
  | cons x xs ih =>
    intro acc u
    rw [List.foldl_cons, ih, mem_foldl_setAdd]
    constructor
    · rintro ((hu | hu) | ⟨r, hr, hu⟩)
      · exact Or.inl hu
      · exact Or.inr ⟨x, List.mem_cons_self _ _, hu⟩
      · exact Or.inr ⟨r, List.mem_cons_of_mem _ hr, hu⟩
    · rintro (hu | ⟨r, hr, hu⟩)
      · exact Or.inl (Or.inl hu)
      · rcases List.mem_cons.mp hr with rfl | hr
        · exact Or.inl (Or.inr hu)
        · exact Or.inr ⟨r, hr, hu⟩

theorem mem_mergeResults {rs : List (List String)} {u : String} :
    u ∈ mergeResults rs ↔ ∃ r ∈ rs, u ∈ r := by
  unfold mergeResults
  rw [mem_mergeResults_aux]
  simp

theorem nodup_mergeResults_aux (rs : List (List String)) :
    ∀ (acc : List String), acc.Nodup →
      (rs.foldl (fun acc resultSet => resultSet.foldl setAdd acc) acc).Nodup := by
  induction rs with
  | nil => intro acc h; simpa
  | cons y ys ih =>
    intro acc h
    rw [List.foldl_cons]
    exact ih _ (nodup_foldl_setAdd y acc h)

theorem nodup_mergeResults (rs : List (List String)) : (mergeResults rs).Nodup :=
  nodup_mergeResults_aux rs [] (by simp)

/-- C4: the `DiscoveryResult` (an unordered, URL-deduplicated record set)
obtained by merging per-task partial results does not depend on the order in
which the per-task results are listed: permuting them (either the raw
per-task URL sets, or the task scripts driving `discoverRelays`) permutes the
final record list, i.e. yields the same set of records. -/
theorem discoverRelays_order_independent (sha256 : String → List Nat) :
    (∀ rs₁ rs₂ : List (List String), rs₁.Perm rs₂ →
        (digestRecords sha256 (mergeResults rs₁)).Perm
          (digestRecords sha256 (mergeResults rs₂))) ∧
    (∀ scripts₁ scripts₂ : List Script, scripts₁.Perm scripts₂ →
        (discoverRelays sha256 scripts₁).Perm (discoverRelays sha256 scripts₂)) := by
  have hmerge : ∀ rs₁ rs₂ : List (List String), rs₁.Perm rs₂ →
      (mergeResults rs₁).Perm (mergeResults rs₂) := by
    intro rs₁ rs₂ hp
    rw [List.perm_ext_iff_of_nodup (nodup_mergeResults rs₁) (nodup_mergeResults rs₂)]
    intro u
    rw [mem_mergeResults, mem_mergeResults]
    constructor
    · rintro ⟨r, hr, hu⟩; exact ⟨r, hp.mem_iff.mp hr, hu⟩
    · rintro ⟨r, hr, hu⟩; exact ⟨r, hp.mem_iff.mpr hr, hu⟩
  constructor
  · intro rs₁ rs₂ hp
    exact (hmerge rs₁ rs₂ hp).map _
  · intro s₁ s₂ hp
    unfold discoverRelays
    exact (hmerge _ _ (hp.map runTask)).map _

theorem discoverRelays_order_independent_witness :
    (discoverRelays sha256Test
        [Script.connected "s1" [TaskEvent.msg (some (mkEventMsg "s1" "wss://a"))],
         Script.connectFail]).Perm
      (discoverRelays sha256Test
        [Script.connectFail,
         Script.connected "s1" [TaskEvent.msg (some (mkEventMsg "s1" "wss://a"))]]) :=
  (discoverRelays_order_independent sha256Test).2
    [Script.connected "s1" [TaskEvent.msg (some (mkEventMsg "s1" "wss://a"))],
     Script.connectFail]
    [Script.connectFail,
     Script.connected "s1" [TaskEvent.msg (some (mkEventMsg "s1" "wss://a"))]]
    (List.Perm.swap _ _ _)

/-- C5: the result of `discoverRelays` holds at most one record per distinct
URL (a URL announced by several bootstrap endpoints still yields exactly one
record), and each surviving URL is digested exactly once, its record pairing
the URL with the digest of that URL. -/
theorem discoverRelays_dedup_digest (sha256 : String → List Nat) (scripts : List Script) :
    ((discoverRelays sha256 scripts).map Relay.url).Nodup ∧
    (∀ r ∈ discoverRelays sha256 scripts, r.hash = sha256 r.url) ∧
    (∀ s ∈ scripts, ∀ u ∈ runTask s,
        List.count u ((discoverRelays sha256 scripts).map Relay.url) = 1) := by
  have hurls : (discoverRelays sha256 scripts).map Relay.url
      = mergeResults (scripts.map runTask) := by
    unfold discoverRelays digestRecords
    rw [List.map_map]
    have hcomp : (Relay.url ∘ fun url => ({ url := url, hash := sha256 url } : Relay)) = id := rfl
    rw [hcomp, List.map_id]
  refine ⟨?_, ?_, ?_⟩
  · rw [hurls]; exact nodup_mergeResults _
  · intro r hr
    unfold discoverRelays digestRecords at hr
    rcases List.mem_map.mp hr with ⟨u, _, rfl⟩
    rfl
  · intro s hs u hu
    rw [hurls]
    exact List.count_eq_one_of_mem (nodup_mergeResults _)
      (mem_mergeResults.mpr ⟨runTask s, List.mem_map_of_mem _ hs, hu⟩)

theorem discoverRelays_dedup_digest_witness :
    List.count "wss://a"
        ((discoverRelays sha256Test
          [Script.connected "s1" [TaskEvent.msg (some (mkEventMsg "s1" "wss://a"))],
           Script.connected "s2" [TaskEvent.msg (some (mkEventMsg "s2" "wss://a"))]]).map
          Relay.url) = 1 :=
  (discoverRelays_dedup_digest sha256Test
      [Script.connected "s1" [TaskEvent.msg (some (mkEventMsg "s1" "wss://a"))],
       Script.connected "s2" [TaskEvent.msg (some (mkEventMsg "s2" "wss://a"))]]).2.2
    (Script.connected "s1" [TaskEvent.msg (some (mkEventMsg "s1" "wss://a"))])
    (List.mem_cons_self _ _)
    "wss://a" (by decide)

/-- C7: no single-connection failure can fail `discoverRelays`: a task whose
connection constructor throws contributes the empty set; events after an
error, close or timeout occurrence do not change a task's contribution (it
finalizes with whatever it accumulated before); and every URL accumulated by
any task still reaches the overall result, which is always returned. -/
theorem queryRelay_failure_isolation (sha256 : String → List Nat) :
    runTask Script.connectFail = [] ∧
    (∀ (subId : String) (acc : List String) (pre post : List TaskEvent) (e : TaskEvent),
        (e = TaskEvent.errorEvt ∨ e = TaskEvent.closeEvt ∨ e = TaskEvent.timeoutEvt) →
        runEvents subId acc (pre ++ e :: post) = runEvents subId acc pre) ∧
    (∀ (scripts : List Script), ∀ s ∈ scripts, ∀ u ∈ runTask s,
        ∃ r ∈ discoverRelays sha256 scripts, r.url = u) := by
  refine ⟨rfl, ?_, ?_⟩
  · intro subId acc pre post e he
    induction pre generalizing acc with
    | nil => rcases he with rfl | rfl | rfl <;> rfl
    | cons ev rest ih =>
      cases ev with
      | msg m =>
        rcases hm : handleMessage subId acc m with ⟨acc', done⟩
        rw [List.cons_append]
        cases done with
        | true => simp [runEvents, hm]
        | false =>
          simp only [runEvents, hm]
          exact ih acc'
      | errorEvt => rfl
      | closeEvt => rfl
      | timeoutEvt => rfl
  · intro scripts s hs u hu
    refine ⟨{url := u, hash := sha256 u}, ?_, rfl⟩
    unfold discoverRelays digestRecords
    exact List.mem_map_of_mem _
      (mem_mergeResults.mpr ⟨runTask s, List.mem_map_of_mem _ hs, hu⟩)

theorem queryRelay_failure_isolation_witness :
    runEvents "s1" ["wss://a"]
        ([TaskEvent.msg none] ++ TaskEvent.errorEvt
          :: [TaskEvent.msg (some (mkEventMsg "s1" "wss://b"))])
      = runEvents "s1" ["wss://a"] [TaskEvent.msg none] :=
  (queryRelay_failure_isolation sha256Test).2.1 "s1" ["wss://a"]
    [TaskEvent.msg none] [TaskEvent.msg (some (mkEventMsg "s1" "wss://b"))]
    TaskEvent.errorEvt (Or.inl rfl)

theorem isStrEq_iff {j : Json} {s : String} : isStrEq j s = true ↔ j = .str s := by
  cases j <;> simp [isStrEq]

theorem tagUrlOk_ne_empty {s : String} (h : tagUrlOk s = true) : (s != "") = true := by
  rcases eq_or_ne s "" with rfl | hne
  · exact absurd h (by decide)
  · simpa [bne_iff_ne]

theorem jsIndexThrows_eq_false_of_isStrEq {t : Json} {i : Nat} {s : String}
    (h : isStrEq (jsIndex t i) s = true) : jsIndexThrows t = false := by
  cases t
  case null => exact Bool.noConfusion h
  all_goals rfl

theorem tagStep_ok_mem {acc acc' : List String} {t : Json}
    (h : tagStep acc t = .ok acc') : ∀ u, u ∈ acc' → u ∈ acc ∨ relayTag u t := by
  intro u hu
  unfold tagStep at h
  by_cases hnull : jsIndexThrows t = true
  · rw [if_pos hnull] at h; exact Except.noConfusion h
  · rw [if_neg hnull] at h
    by_cases h0 : isStrEq (jsIndex t 0) "r" = true
    · rw [if_pos h0] at h
      by_cases h1 : truthy (jsIndex t 1) = true
      · rw [if_pos h1] at h
        cases hj : jsIndex t 1
        all_goals simp only [hj] at h
        all_goals try exact Except.noConfusion h
        next s =>
          by_cases h2 : tagUrlOk s = true
          · rw [if_pos h2] at h
            cases h
            rcases mem_setAdd.mp hu with hu' | rfl
            · exact Or.inl hu'
            · exact Or.inr ⟨h0, by rw [hj]; simp [isStrEq], h2⟩
          · rw [if_neg h2] at h; cases h; exact Or.inl hu
      · rw [if_neg h1] at h; cases h; exact Or.inl hu
    · rw [if_neg h0] at h; cases h; exact Or.inl hu

theorem tagStep_ok_subset {acc acc' : List String} {t : Json}
    (h : tagStep acc t = .ok acc') : acc ⊆ acc' := by
  unfold tagStep at h
  by_cases hnull : jsIndexThrows t = true
  · rw [if_pos hnull] at h; exact Except.noConfusion h
  · rw [if_neg hnull] at h
    by_cases h0 : isStrEq (jsIndex t 0) "r" = true
    · rw [if_pos h0] at h
      by_cases h1 : truthy (jsIndex t 1) = true
      · rw [if_pos h1] at h
        cases hj : jsIndex t 1
        all_goals simp only [hj] at h
        all_goals try exact Except.noConfusion h
        next s =>
          by_cases h2 : tagUrlOk s = true
          · rw [if_pos h2] at h; cases h; exact setAdd_subset acc s
          · rw [if_neg h2] at h; cases h; exact fun u hu => hu
      · rw [if_neg h1] at h; cases h; exact fun u hu => hu
    · rw [if_neg h0] at h; cases h; exact fun u hu => hu

theorem tagStep_error_eq {acc acc' : List String} {t : Json}
    (h : tagStep acc t = .error acc') : acc' = acc := by
  unfold tagStep at h
  by_cases hnull : jsIndexThrows t = true
  · rw [if_pos hnull] at h; cases h; rfl
  · rw [if_neg hnull] at h
    by_cases h0 : isStrEq (jsIndex t 0) "r" = true
    · rw [if_pos h0] at h
      by_cases h1 : truthy (jsIndex t 1) = true
      · rw [if_pos h1] at h
        cases hj : jsIndex t 1
        all_goals simp only [hj] at h
        all_goals try (cases h; rfl)
        next s =>
          by_cases h2 : tagUrlOk s = true
          · rw [if_pos h2] at h; exact Except.noConfusion h
          · rw [if_neg h2] at h; exact Except.noConfusion h
      · rw [if_neg h1] at h; exact Except.noConfusion h
    · rw [if_neg h0] at h; exact Except.noConfusion h

theorem tagStep_of_relayTag {acc : List String} {u : String} {t : Json}
    (h : relayTag u t) : tagStep acc t = .ok (setAdd acc u) := by
  obtain ⟨h0, h1, h2⟩ := h
  have hj : jsIndex t 1 = .str u := isStrEq_iff.mp h1
  have hnull : ¬ jsIndexThrows t = true := by
    rw [jsIndexThrows_eq_false_of_isStrEq h0]
    exact Bool.false_ne_true
  unfold tagStep
  rw [hj, if_neg hnull, if_pos h0,
    if_pos (show truthy (Json.str u) = true from tagUrlOk_ne_empty h2)]
  simp only [if_pos h2]

theorem tagStep_of_safe {acc : List String} {t : Json} (h : safeTag t) :
    ∃ acc', tagStep acc t = .ok acc' ∧ acc ⊆ acc' := by
  obtain ⟨hthrow, himp⟩ := h
  have hnull : ¬ jsIndexThrows t = true := by
    rw [hthrow]
    exact Bool.false_ne_true
  unfold tagStep
  rw [if_neg hnull]
  by_cases h0 : isStrEq (jsIndex t 0) "r" = true
  · rw [if_pos h0]
    by_cases h1 : truthy (jsIndex t 1) = true
    · rw [if_pos h1]
      have hs := himp h0 h1
      cases hj : jsIndex t 1 with
      | null => rw [hj] at hs; exact absurd hs (by simp [isStringJson])
      | bool b => rw [hj] at hs; exact absurd hs (by simp [isStringJson])
      | num n => rw [hj] at hs; exact absurd hs (by simp [isStringJson])
      | arr elems => rw [hj] at hs; exact absurd hs (by simp [isStringJson])
      | obj fields => rw [hj] at hs; exact absurd hs (by simp [isStringJson])
      | str s =>
        simp only [hj]
        by_cases h2 : tagUrlOk s = true
        · rw [if_pos h2]; exact ⟨setAdd acc s, rfl, setAdd_subset acc s⟩
        · rw [if_neg h2]; exact ⟨acc, rfl, fun u hu => hu⟩
    · rw [if_neg h1]; exact ⟨acc, rfl, fun u hu => hu⟩
  · rw [if_neg h0]; exact ⟨acc, rfl, fun u hu => hu⟩

theorem subset_processTags (tags : List Json) :
    ∀ acc : List String, acc ⊆ processTags acc tags := by
  induction tags with
  | nil => intro acc u hu; exact hu
  | cons t ts ih =>
    intro acc
    cases htag : tagStep acc t with
    | ok acc' =>
      simp only [processTags, htag]
      exact fun u hu => ih acc' (tagStep_ok_subset htag hu)
    | error acc' =>
      simp only [processTags, htag]
      rw [tagStep_error_eq htag]
      exact fun u hu => hu

theorem processTags_mem_forward (tags : List Json) :
    ∀ (acc : List String) (u : String),
      u ∈ processTags acc tags → u ∈ acc ∨ ∃ t ∈ tags, relayTag u t := by
  induction tags with
  | nil => intro acc u hu; exact Or.inl hu
  | cons t ts ih =>
    intro acc u hu
    cases htag : tagStep acc t with
    | ok acc' =>
      rw [show processTags acc (t :: ts) = processTags acc' ts by
        simp only [processTags, htag]] at hu
      rcases ih acc' u hu with hu' | ⟨t', ht', hr⟩
      · rcases tagStep_ok_mem htag u hu' with hu'' | hr
        · exact Or.inl hu''
        · exact Or.inr ⟨t, List.mem_cons_self _ _, hr⟩
      · exact Or.inr ⟨t', List.mem_cons_of_mem _ ht', hr⟩
    | error acc' =>
      rw [show processTags acc (t :: ts) = acc' by simp only [processTags, htag],
        tagStep_error_eq htag] at hu
      exact Or.inl hu

theorem processTags_mem_backward (tags : List Json) :
    ∀ (acc : List String) (u : String), (∀ t ∈ tags, safeTag t) →
      (u ∈ acc ∨ ∃ t ∈ tags, relayTag u t) → u ∈ processTags acc tags := by
  induction tags with
  | nil =>
    intro acc u _ h
    rcases h with hu | ⟨t, ht, _⟩
    · exact hu
    · exact absurd ht (List.not_mem_nil t)
  | cons t ts ih =>
    intro acc u hsafe h
    rcases h with hu | ⟨t', ht', hr⟩
    · obtain ⟨acc', htag, hsub⟩ := @tagStep_of_safe acc t (hsafe t (List.mem_cons_self _ _))
      simp only [processTags, htag]
      exact ih acc' u (fun t'' ht'' => hsafe t'' (List.mem_cons_of_mem _ ht'')) (Or.inl (hsub hu))
    · rcases List.mem_cons.mp ht' with rfl | hts
      · have htag := @tagStep_of_relayTag acc _ _ hr
        simp only [processTags, htag]
        exact subset_processTags ts _ (mem_setAdd.mpr (Or.inr rfl))
      · obtain ⟨acc', htag, _⟩ := @tagStep_of_safe acc t (hsafe t (List.mem_cons_self _ _))
        simp only [processTags, htag]
        exact ih acc' u (fun t'' ht'' => hsafe t'' (List.mem_cons_of_mem _ ht''))
          (Or.inr ⟨t', hts, hr⟩)

theorem handleMessage_event_eq {subId : String} {acc : List String} {data : Json}
    (h0 : isStrEq (jsIndex data 0) "EVENT" = true)
    (h1 : isStrEq (jsIndex data 1) subId = true)
    (h2 : truthy (jsIndex data 2) = true) :
    handleMessage subId acc (some data) = (handleEventData acc (jsIndex data 2), false) := by
  simp only [handleMessage]
  rw [h0, h1, h2]
  rfl

theorem handleMessage_fst_of_not_event {subId : String} {acc : List String} {data : Json}
    (hc : ¬((isStrEq (jsIndex data 0) "EVENT" && isStrEq (jsIndex data 1) subId
        && truthy (jsIndex data 2)) = true)) :
    (handleMessage subId acc (some data)).1 = acc := by
  simp only [handleMessage]
  rw [if_neg hc]
  by_cases he : (isStrEq (jsIndex data 0) "EOSE" && isStrEq (jsIndex data 1) subId) = true
  · rw [if_pos he]
  · rw [if_neg he]

theorem handleEventData_eq {acc : List String} {eventData : Json} {tags : List Json}
    (hk : isNumEq (jsField eventData "kind") 10002 = true)
    (ht : jsField eventData "tags" = .arr tags) :
    handleEventData acc eventData = processTags acc tags := by
  unfold handleEventData
  rw [hk, ht]
  rfl

theorem handleEventData_mem {acc : List String} {eventData : Json} {u : String}
    (hu : u ∈ handleEventData acc eventData) :
    u ∈ acc ∨ (isNumEq (jsField eventData "kind") 10002 = true ∧
      ∃ tags, jsField eventData "tags" = Json.arr tags ∧ ∃ t ∈ tags, relayTag u t) := by
  unfold handleEventData at hu
  by_cases hk : isNumEq (jsField eventData "kind") 10002 = true
  · rw [if_pos hk] at hu
    cases ht : jsField eventData "tags"
    all_goals simp only [ht] at hu
    all_goals try exact Or.inl hu
    next tags =>
      rcases processTags_mem_forward tags acc u hu with hu' | ⟨t, htag, hr⟩
      · exact Or.inl hu'
      · exact Or.inr ⟨hk, tags, rfl, t, htag, hr⟩
  · rw [if_neg hk] at hu
    exact Or.inl hu

/-- C6 amended: a URL `u` is added to a task's accumulator only if the message
is a delivered-event message addressed to this task's subscription whose
event has kind 10002 and an `"r"` tag carrying `u` with a `ws://`/`wss://`
prefix; conversely, provided every tag of the event is throw-free — no tag is
JSON `null` (the `tag[0]` access on a null tag throws a `TypeError`) and no
tag has a truthy non-string second field (such a field makes
`tag[1].startsWith` throw) — a URL is added if and only if such a tag
exists.  Either throw is caught at message level and silently aborts the
scan of the remaining tags.  Non-JSON or non-string messages change nothing,
and no message other than a matching `EOSE` terminates the task. -/
theorem onmessage_accumulation (subId : String) :
    (∀ acc : List String, handleMessage subId acc none = (acc, false)) ∧
    (∀ (acc : List String) (msg : Option Json) (u : String),
        u ∈ (handleMessage subId acc msg).1 → u ∈ acc ∨
        ∃ data, msg = some data ∧ isStrEq (jsIndex data 0) "EVENT" = true ∧
          isStrEq (jsIndex data 1) subId = true ∧ truthy (jsIndex data 2) = true ∧
          isNumEq (jsField (jsIndex data 2) "kind") 10002 = true ∧
          ∃ tags, jsField (jsIndex data 2) "tags" = Json.arr tags ∧
            ∃ t ∈ tags, relayTag u t) ∧
    (∀ (acc : List String) (data : Json) (tags : List Json) (u : String),
        isStrEq (jsIndex data 0) "EVENT" = true →
        isStrEq (jsIndex data 1) subId = true →
        truthy (jsIndex data 2) = true →
        isNumEq (jsField (jsIndex data 2) "kind") 10002 = true →
        jsField (jsIndex data 2) "tags" = Json.arr tags →
        (∀ t ∈ tags, safeTag t) →
        (u ∈ (handleMessage subId acc (some data)).1 ↔
          u ∈ acc ∨ ∃ t ∈ tags, relayTag u t)) ∧
    (∀ (acc : List String) (msg : Option Json),
        (handleMessage subId acc msg).2 = true →
        ∃ data, msg = some data ∧ isStrEq (jsIndex data 0) "EOSE" = true ∧
          isStrEq (jsIndex data 1) subId = true) := by
  refine ⟨fun acc => rfl, ?_, ?_, ?_⟩
  · intro acc msg u hu
    cases msg with
    | none => exact Or.inl hu
    | some data =>
      by_cases hc : (isStrEq (jsIndex data 0) "EVENT" && isStrEq (jsIndex data 1) subId
          && truthy (jsIndex data 2)) = true
      · rw [Bool.and_eq_true, Bool.and_eq_true] at hc
        obtain ⟨⟨h0, h1⟩, h2⟩ := hc
        rw [handleMessage_event_eq h0 h1 h2] at hu
        rcases handleEventData_mem hu with hu' | ⟨hk, tags, ht, t, htag, hr⟩
        · exact Or.inl hu'
        · exact Or.inr ⟨data, rfl, h0, h1, h2, hk, tags, ht, t, htag, hr⟩
      · rw [handleMessage_fst_of_not_event hc] at hu
        exact Or.inl hu
  · intro acc data tags u h0 h1 h2 hk ht hsafe
    rw [handleMessage_event_eq h0 h1 h2]
    show u ∈ handleEventData acc (jsIndex data 2) ↔ _
    rw [handleEventData_eq hk ht]
    constructor
    · intro hu
      rcases processTags_mem_forward tags acc u hu with hu' | h
      · exact Or.inl hu'
      · exact Or.inr h
    · exact processTags_mem_backward tags acc u hsafe
  · intro acc msg h
    cases msg with
    | none => exact absurd h (by simp [handleMessage])
    | some data =>
      by_cases hc : (isStrEq (jsIndex data 0) "EVENT" && isStrEq (jsIndex data 1) subId
          && truthy (jsIndex data 2)) = true
      · rw [Bool.and_eq_true, Bool.and_eq_true] at hc
        obtain ⟨⟨h0, h1⟩, h2⟩ := hc
        rw [handleMessage_event_eq h0 h1 h2] at h
        exact absurd h (by simp)
      · simp only [handleMessage] at h
        rw [if_neg hc] at h
        by_cases he : (isStrEq (jsIndex data 0) "EOSE" && isStrEq (jsIndex data 1) subId) = true
        · rw [Bool.and_eq_true] at he
          exact ⟨data, rfl, he.1, he.2⟩
        · rw [if_neg he] at h
          exact absurd h (by simp)

theorem onmessage_accumulation_witness :
    "wss://a" ∈ (handleMessage "s1" [] (some (mkEventMsg "s1" "wss://a"))).1 :=
  ((onmessage_accumulation "s1").2.2.1 [] (mkEventMsg "s1" "wss://a")
      [Json.arr [Json.str "r", Json.str "wss://a"]] "wss://a"
      (by decide) (by decide) (by decide) (by decide) rfl (by decide)).mpr
    (Or.inr ⟨Json.arr [Json.str "r", Json.str "wss://a"],
      List.mem_cons_self _ _, by decide⟩)

/-- C6 counterexample: `mixedEventMsg` and `nullTagEventMsg` are both
delivered-event messages addressed to subscription `"s1"`, of kind 10002,
whose tag lists contain a tag whose first field is `"r"` and whose second
field is the string `"wss://b"` (`ws`-scheme prefixed) — yet `"wss://b"` is
not added to the accumulator for either: in `mixedEventMsg` the preceding
malformed tag `["r", 1]` raises a caught `TypeError` from
`tag[1].startsWith`, and in `nullTagEventMsg` the preceding JSON `null` tag
raises a caught `TypeError` already at the `tag[0]` access; both abort the
tag scan.  So the claimed "if and only if" fails on the code (the messages
also, as claimed, do not terminate the connection). -/
theorem onmessage_iff_fails :
    (isStrEq (jsIndex mixedEventMsg 0) "EVENT" = true ∧
      isStrEq (jsIndex mixedEventMsg 1) "s1" = true ∧
      truthy (jsIndex mixedEventMsg 2) = true ∧
      isNumEq (jsField (jsIndex mixedEventMsg 2) "kind") 10002 = true ∧
      jsField (jsIndex mixedEventMsg 2) "tags" = Json.arr [badTag, goodTag] ∧
      goodTag ∈ [badTag, goodTag] ∧
      relayTag "wss://b" goodTag ∧
      "wss://b" ∉ (handleMessage "s1" [] (some mixedEventMsg)).1 ∧
      (handleMessage "s1" [] (some mixedEventMsg)).2 = false) ∧
    (isStrEq (jsIndex nullTagEventMsg 0) "EVENT" = true ∧
      isStrEq (jsIndex nullTagEventMsg 1) "s1" = true ∧
      truthy (jsIndex nullTagEventMsg 2) = true ∧
      isNumEq (jsField (jsIndex nullTagEventMsg 2) "kind") 10002 = true ∧
      jsField (jsIndex nullTagEventMsg 2) "tags" = Json.arr [Json.null, goodTag] ∧
      goodTag ∈ [Json.null, goodTag] ∧
      "wss://b" ∉ (handleMessage "s1" [] (some nullTagEventMsg)).1 ∧
      (handleMessage "s1" [] (some nullTagEventMsg)).2 = false) :=
  ⟨⟨by decide, by decide, by decide, by decide, rfl,
      List.mem_cons_of_mem _ (List.mem_cons_self _ _),
      by decide, by decide, by decide⟩,
    ⟨by decide, by decide, by decide, by decide, rfl,
      List.mem_cons_of_mem _ (List.mem_cons_self _ _),
      by decide, by decide⟩⟩

/-! ## Closest-selector claims -/

theorem distLe_trans : ∀ a b c : String × Nat,
    decide (a.2 ≤ b.2) = true → decide (b.2 ≤ c.2) = true → decide (a.2 ≤ c.2) = true := by
  intro a b c h1 h2
  rw [decide_eq_true_eq] at h1 h2 ⊢
  omega

theorem distLe_total : ∀ a b : String × Nat,
    (decide (a.2 ≤ b.2) || decide (b.2 ≤ a.2)) = true := by
  intro a b
  rcases Nat.le_total a.2 b.2 with h | h <;> simp [h]

theorem length_sortPairs (l : List (String × Nat)) : (sortPairs l).length = l.length := by
  unfold sortPairs
  exact List.length_mergeSort l

/-- C1: for `n ≥ 0`, `getRelays` returns the URLs of the first `n` entries of
the candidate list sorted ascending by XOR distance between the target's
digest and each candidate's digest: the output has length `min n |C|`, the
sorted list is pairwise non-decreasing in distance and is a permutation of
the candidate pairs, and the tie-break is the deterministic documented policy
of a stable sort — candidates at equal distance keep their input order. -/
theorem getRelays_closest_spec (sha256 : String → List Nat) (id : String)
    (relays : List Relay) (n : Int) (hn : 0 ≤ n) :
    (getRelays sha256 id relays n).length = min n.toNat relays.length ∧
    getRelays sha256 id relays n
      = ((sortPairs (distPairs sha256 id relays)).take n.toNat).map Prod.fst ∧
    List.Pairwise (fun a b : String × Nat => a.2 ≤ b.2)
      (sortPairs (distPairs sha256 id relays)) ∧
    (sortPairs (distPairs sha256 id relays)).Perm (distPairs sha256 id relays) ∧
    (∀ p q : String × Nat, p.2 = q.2 →
        [p, q].Sublist (distPairs sha256 id relays) →
        [p, q].Sublist (sortPairs (distPairs sha256 id relays))) := by
  have hslice : jsSliceTo (sortPairs (distPairs sha256 id relays)) n
      = (sortPairs (distPairs sha256 id relays)).take n.toNat := by
    unfold jsSliceTo
    rw [if_neg (by omega : ¬ n < 0)]
  refine ⟨?_, ?_, ?_, ?_, ?_⟩
  · unfold getRelays
    rw [hslice, List.length_map, List.length_take, length_sortPairs]
    unfold distPairs
    rw [List.length_map]
  · unfold getRelays
    rw [hslice]
  · have hs := @List.sorted_mergeSort _ (fun a b : String × Nat => decide (a.2 ≤ b.2))
      distLe_trans distLe_total (distPairs sha256 id relays)
    unfold sortPairs
    exact hs.imp (fun h => of_decide_eq_true h)
  · exact List.mergeSort_perm _ _
  · intro p q hpq hsub
    unfold sortPairs
    refine List.sublist_mergeSort distLe_trans distLe_total ?_ hsub
    refine List.pairwise_cons.mpr ⟨?_, List.pairwise_singleton _ _⟩
    intro q' hq'
    rcases List.mem_singleton.mp hq' with rfl
    rw [decide_eq_true_eq, hpq]

theorem getRelays_closest_spec_witness :
    (0 : Int) ≤ 1 ∧
    (getRelays sha256Test "x"
        [{ url := "wss://a", hash := [0] }, { url := "wss://b", hash := [1] }] 1).length
      = min (1 : Int).toNat
          ([{ url := "wss://a", hash := [0] },
            { url := "wss://b", hash := [1] }] : List Relay).length :=
  ⟨by decide,
    (getRelays_closest_spec sha256Test "x"
      [{ url := "wss://a", hash := [0] }, { url := "wss://b", hash := [1] }] 1
      (by decide)).1⟩

/-- C8 counterexample: called with the malformed input `n = -1`, `getRelays`
does not raise an error: JavaScript `slice(0, -1)` treats the negative bound
as counting from the end, so on a two-candidate pool it quietly returns the
single nearest URL. -/
theorem getRelays_negative_n_no_raise :
    getRelays (fun _ => [0]) "x"
        [{ url := "wss://a", hash := [0] }, { url := "wss://b", hash := [1] }] (-1)
      = ["wss://a"] := by
  have h1 : xorDistance [0] [0] = 0 := by decide
  have h2 : xorDistance [0] [1] = 1 := by decide
  simp [getRelays, jsSliceTo, sortPairs, distPairs, h1, h2, List.mergeSort, List.merge]

/-- C8 amended: `getRelays` never raises, for malformed input included: for
every `n ≥ 0` it succeeds with `min n |C|` results (fewer than `n` when the
candidate pool is smaller), and a negative `n` is not rejected either — the
`slice(0, n)` semantics then yield the first `max (|C| + n) 0` sorted URLs. -/
theorem getRelays_total_length (sha256 : String → List Nat) (id : String)
    (relays : List Relay) (n : Int) :
    (getRelays sha256 id relays n).length
      = if n < 0 then relays.length - (-n).toNat else min n.toNat relays.length := by
  have hlen : (sortPairs (distPairs sha256 id relays)).length = relays.length := by
    rw [length_sortPairs]
    unfold distPairs
    exact List.length_map _ _
  unfold getRelays jsSliceTo
  by_cases hn : n < 0
  · rw [if_pos hn, if_pos hn, List.length_map, List.length_take, hlen]
    exact Nat.min_eq_left (Nat.sub_le _ _)
  · rw [if_neg hn, if_neg hn, List.length_map, List.length_take, hlen]

/-- C9: `getRelays` is pure and does not mutate its `relays` argument: the
body only reads the candidate records (JavaScript `Array.prototype.map`
allocates a fresh array of fresh `{url, distance}` objects and the in-place
`sort` is applied to that fresh array), so after the call the candidates
array holds the same records, in the same order, with `url` and `hash`
fields unchanged, and the returned list is exactly `getRelays`'s result. -/
theorem getRelays_no_mutation (sha256 : String → List Nat) (id : String)
    (relays : List Relay) (n : Int) :
    (getRelaysTracked sha256 id relays n).2 = relays ∧
    (getRelaysTracked sha256 id relays n).1 = getRelays sha256 id relays n ∧
    ((getRelaysTracked sha256 id relays n).2).map Relay.url = relays.map Relay.url ∧
    ((getRelaysTracked sha256 id relays n).2).map Relay.hash = relays.map Relay.hash :=
  ⟨rfl, rfl, rfl, rfl⟩
